import Mathlib

/-!
Shallow embedding of the lyric-video export core of this repository
(the `exportVideo` module, `services/videoExporter.ts`, together with
the export entry points in `App.tsx`): active-lyric resolution,
progress reporting, the analyser configuration, output geometry, the
visualizer gradient construction, and the end-of-playback handler.

Times, progress ratios and canvas coordinates are embedded as `ℚ`;
the source computes them as IEEE doubles, but the claims only exercise
comparisons, divisions and affine maps on small exact values, where
double and rational arithmetic agree.  Byte-valued spectrum magnitudes
are `ℕ` reduced mod 256, as a `Uint8Array` stores them.
-/

namespace LyricVideo

/-- A lyric line, from `types.ts`: `{ text: string; startTime: number }`. -/
structure Lyric where
  text : String
  startTime : ℚ
deriving DecidableEq, Repr

/-- Active-lyric resolution, translated from `renderFrame` in the exporter:
`for (let i = lyrics.length - 1; i >= 0; i--) if (currentTime >= lyrics[i].startTime) ... break`.
The recursion prefers a match found in the tail (a higher index), exactly as
the downward loop returns the first match from the end; `none` embeds the
loop falling through with `currentLyric` still the empty string. -/
def resolveActive : List Lyric → ℚ → Option String
  | [], _ => none
  | l :: ls, t =>
    match resolveActive ls t with
    | some s => some s
    | none => if l.startTime ≤ t then some l.text else none

/-- Specification-side resolution, phrased from the spec's words: the text of
"the last entry whose `startTime <= timestamp`" — the last such entry is the
first match of the reversed sequence. -/
def lastEntryAtOrBefore (lyrics : List Lyric) (t : ℚ) : Option String :=
  (lyrics.reverse.find? fun l => decide (l.startTime ≤ t)).map Lyric.text

/-- The two-line timeline of the spec's boundary property. -/
def demoTimeline : List Lyric := [⟨"A", 2⟩, ⟨"B", 5⟩]

theorem resolveActive_cons (l : Lyric) (ls : List Lyric) (t : ℚ) :
    resolveActive (l :: ls) t =
      (resolveActive ls t).or (if l.startTime ≤ t then some l.text else none) := by
  rw [resolveActive]
  cases resolveActive ls t <;> rfl

theorem resolveActive_eq_lastEntryAtOrBefore (lyrics : List Lyric) (t : ℚ) :
    resolveActive lyrics t = lastEntryAtOrBefore lyrics t := by
  induction lyrics with
  | nil => rfl
  | cons l ls ih =>
    rw [resolveActive_cons, ih]
    unfold lastEntryAtOrBefore
    rw [List.reverse_cons, List.find?_append]
    cases h : ls.reverse.find? (fun m => decide (m.startTime ≤ t)) with
    | some m => simp
    | none =>
      by_cases hl : l.startTime ≤ t <;> simp [List.find?, hl]

theorem resolveActive_none_of_forall_gt (lyrics : List Lyric) (t : ℚ)
    (h : ∀ l ∈ lyrics, t < l.startTime) : resolveActive lyrics t = none := by
  induction lyrics with
  | nil => rfl
  | cons l ls ih =>
    rw [resolveActive_cons, ih (fun m hm => h m (List.mem_cons_of_mem _ hm))]
    rw [if_neg (not_le.mpr (h l (List.mem_cons_self l ls)))]
    rfl

theorem resolveActive_append (xs ys : List Lyric) (t : ℚ) :
    resolveActive (xs ++ ys) t = (resolveActive ys t).or (resolveActive xs t) := by
  induction xs with
  | nil => simp [resolveActive]
  | cons x xs ih =>
    rw [List.cons_append, resolveActive_cons, ih, resolveActive_cons, Option.or_assoc]

/-- C1: for every lyric timeline sorted ascending by `startTime` and every
query timestamp `t`, active-lyric resolution returns the text of the last
entry whose `startTime ≤ t`, and returns no lyric when `t` precedes the first
entry's `startTime` or the timeline is empty; for the timeline
`[("A",2.0),("B",5.0)]` it returns none at `t = 1.9`, `"A"` at `t = 2.0` and
`t = 4.999`, and `"B"` at `t = 5.0` and `t = 100`. -/
theorem c1_resolveActive_lastMatch (lyrics : List Lyric) (t : ℚ)
    (hsorted : lyrics.Pairwise fun a b => a.startTime ≤ b.startTime) :
    resolveActive lyrics t = lastEntryAtOrBefore lyrics t ∧
    (∀ l₀, lyrics.head? = some l₀ → t < l₀.startTime →
      resolveActive lyrics t = none) ∧
    resolveActive [] t = none ∧
    resolveActive demoTimeline (19/10) = none ∧
    resolveActive demoTimeline 2 = some "A" ∧
    resolveActive demoTimeline (4999/1000) = some "A" ∧
    resolveActive demoTimeline 5 = some "B" ∧
    resolveActive demoTimeline 100 = some "B" := by
  refine ⟨resolveActive_eq_lastEntryAtOrBefore lyrics t, ?_, rfl,
    by norm_num [demoTimeline, resolveActive_cons, resolveActive],
    by norm_num [demoTimeline, resolveActive_cons, resolveActive],
    by norm_num [demoTimeline, resolveActive_cons, resolveActive],
    by norm_num [demoTimeline, resolveActive_cons, resolveActive],
    by norm_num [demoTimeline, resolveActive_cons, resolveActive]⟩
  intro l₀ h0 hlt
  cases lyrics with
  | nil => rfl
  | cons m ms =>
    have hm : m = l₀ := by simpa using h0
    subst hm
    have hms := (List.pairwise_cons.mp hsorted).1
    refine resolveActive_none_of_forall_gt _ t ?_
    intro l hl
    rcases List.mem_cons.mp hl with rfl | hl
    · exact hlt
    · exact lt_of_lt_of_le hlt (hms l hl)

theorem c1_witness :
    resolveActive demoTimeline 3 = lastEntryAtOrBefore demoTimeline 3 :=
  (c1_resolveActive_lastMatch demoTimeline 3 (by decide)).1

/-- C9: the backward scan makes the duplicate-`startTime` tie-break
deterministic: whenever the timeline splits as `xs ++ l :: ys` with
`l.startTime ≤ t` and every entry of `ys` starting strictly after `t`,
resolution returns `l`'s text — the stored entry of greatest index whose
`startTime ≤ t` wins, so with several entries sharing a `startTime ≤ t` and
`t` before every later entry, the last stored duplicate is returned. -/
theorem c9_duplicate_tiebreak (xs ys : List Lyric) (l : Lyric) (t : ℚ)
    (hle : l.startTime ≤ t) (hafter : ∀ m ∈ ys, t < m.startTime) :
    resolveActive (xs ++ l :: ys) t = some l.text := by
  rw [resolveActive_append, resolveActive_cons,
    resolveActive_none_of_forall_gt ys t hafter, if_pos hle]
  rfl

/-- A timeline with two entries sharing `startTime = 2`. -/
def dupTimeline : List Lyric := [⟨"A", 2⟩, ⟨"B", 2⟩, ⟨"C", 5⟩]

theorem c9_witness : resolveActive dupTimeline 3 = some "B" :=
  c9_duplicate_tiebreak [⟨"A", 2⟩] [⟨"C", 5⟩] ⟨"B", 2⟩ 3 (by decide) (by decide)

/-! ### Progress reporting (exportVideo and its render loop) -/

/-- The constant progress values reported before the render loop starts:
`onProgress(0)` at entry, then `0.05`, `0.1`, `0.15` and `0.2` after the
browser-capability check, asset load, font load and recorder setup. -/
def setupEmits : List ℚ := [0, 1/20, 1/10, 3/20, 1/5]

/-- The affine remap `0.2 + progress * 0.8` applied by the render loop
("Scale progress from 0.2 to 1.0"). -/
def progressScale (p : ℚ) : ℚ := 1/5 + p * (4/5)

/-- One render tick's progress report, from `renderFrame`: with
`progress = p` and `lastProgress = last`, a report fires iff
`Math.floor(progress * 100) !== Math.floor(lastProgress * 100)`, and the
reported value is `0.2 + progress * 0.8`. -/
def tickEmit (last p : ℚ) : Option ℚ :=
  if ⌊p * 100⌋ ≠ ⌊last * 100⌋ then some (progressScale p) else none

/-- The values handed to `onProgress` by the render loop across a list of
successive `progress = audio.currentTime / audio.duration` samples; the
first argument is the `lastProgress` variable, initialised to `-1` and
updated only when a report fires. -/
def encodingEmits : ℚ → List ℚ → List ℚ
  | _, [] => []
  | last, p :: ps =>
    match tickEmit last p with
    | some v => v :: encodingEmits p ps
    | none => encodingEmits last ps

/-- The `progress` samples at which the render loop's report fires. -/
def selectTicks : ℚ → List ℚ → List ℚ
  | _, [] => []
  | last, p :: ps =>
    if ⌊p * 100⌋ ≠ ⌊last * 100⌋ then p :: selectTicks p ps
    else selectTicks last ps

/-- The whole sequence of values handed to `onProgress` over one successful
export whose render loop observes playback times `ts` against audio duration
`d`: the five setup reports, the render-loop reports, and finally
`onProgress(1)` from `recorder.onstop`. -/
def exportEmits (d : ℚ) (ts : List ℚ) : List ℚ :=
  (setupEmits ++ encodingEmits (-1) (ts.map fun t => t / d)) ++ [1]

theorem encodingEmits_eq_map (last : ℚ) (ps : List ℚ) :
    encodingEmits last ps = (selectTicks last ps).map progressScale := by
  induction ps generalizing last with
  | nil => rfl
  | cons p ps ih =>
    by_cases h : ⌊p * 100⌋ ≠ ⌊last * 100⌋
    · simp [encodingEmits, selectTicks, tickEmit, h, ih]
    · simp [encodingEmits, selectTicks, tickEmit, h, ih]

theorem selectTicks_sublist (last : ℚ) (ps : List ℚ) :
    List.Sublist (selectTicks last ps) ps := by
  induction ps generalizing last with
  | nil => simp [selectTicks]
  | cons p ps ih =>
    by_cases h : ⌊p * 100⌋ ≠ ⌊last * 100⌋
    · rw [selectTicks, if_pos h]
      exact .cons₂ _ (ih p)
    · rw [selectTicks, if_neg h]
      exact .cons _ (ih last)

theorem mem_encodingEmits_bounds (last : ℚ) (ps : List ℚ)
    (hb : ∀ p ∈ ps, 0 ≤ p ∧ p ≤ 1) :
    ∀ v ∈ encodingEmits last ps, 1/5 ≤ v ∧ v ≤ 1 := by
  intro v hv
  rw [encodingEmits_eq_map] at hv
  obtain ⟨p, hp, rfl⟩ := List.mem_map.mp hv
  obtain ⟨h0, h1⟩ := hb p ((selectTicks_sublist last ps).subset hp)
  unfold progressScale
  constructor
  · nlinarith
  · nlinarith

theorem pairwise_encodingEmits (last : ℚ) (ps : List ℚ)
    (hm : ps.Pairwise (· ≤ ·)) :
    (encodingEmits last ps).Pairwise (· ≤ ·) := by
  rw [encodingEmits_eq_map]
  refine List.pairwise_map.mpr ?_
  refine (List.Pairwise.sublist (selectTicks_sublist last ps) hm).imp ?_
  intro a b hab
  unfold progressScale
  linarith

theorem exportEmits_chain_aux (ps : List ℚ)
    (hpb : ∀ p ∈ ps, 0 ≤ p ∧ p ≤ 1) (hpm : ps.Pairwise (· ≤ ·)) :
    ((setupEmits ++ encodingEmits (-1) ps) ++ [1]).Chain' (· ≤ ·) := by
  refine List.chain'_append.mpr ⟨?_, List.chain'_singleton 1, ?_⟩
  · refine List.chain'_append.mpr ⟨?_, ?_, ?_⟩
    · norm_num [setupEmits, List.chain'_cons]
    · exact List.chain'_iff_pairwise.mpr (pairwise_encodingEmits _ _ hpm)
    · intro x hx y hy
      have hx' : (1 : ℚ)/5 = x := by simpa [setupEmits] using hx
      subst hx'
      exact (mem_encodingEmits_bounds _ _ hpb y (List.mem_of_mem_head? hy)).1
  · intro x hx y hy
    have hy' : (1 : ℚ) = y := by simpa using hy
    subst hy'
    rcases he : encodingEmits (-1) ps with _ | ⟨v, vs⟩
    · rw [he] at hx
      have hx' : (1 : ℚ)/5 = x := by simpa [setupEmits] using hx
      rw [← hx']
      norm_num
    · rw [he, List.getLast?_append_of_ne_nil setupEmits (List.cons_ne_nil v vs)] at hx
      have hxm : x ∈ encodingEmits (-1) ps := by
        rw [he]
        exact List.mem_of_getLast?_eq_some hx
      exact (mem_encodingEmits_bounds _ _ hpb x hxm).2

/-- C2: across one successful export, the sequence of values passed to
`onProgress` is non-decreasing, and the final value reported is exactly
`1.0`, provided the playback times sampled by the render loop are
non-decreasing and lie within `[0, duration]`. -/
theorem c2_progress_monotone (d : ℚ) (ts : List ℚ) (hd : 0 < d)
    (hmono : ts.Pairwise (· ≤ ·)) (hb : ∀ t ∈ ts, 0 ≤ t ∧ t ≤ d) :
    (exportEmits d ts).Chain' (· ≤ ·) ∧
    (exportEmits d ts).getLast? = some 1 := by
  have hpb : ∀ p ∈ ts.map (fun t => t / d), 0 ≤ p ∧ p ≤ 1 := by
    intro p hp
    obtain ⟨t, ht, rfl⟩ := List.mem_map.mp hp
    obtain ⟨h0, h1⟩ := hb t ht
    exact ⟨div_nonneg h0 hd.le, (div_le_one hd).mpr h1⟩
  have hpm : (ts.map fun t => t / d).Pairwise (· ≤ ·) := by
    refine List.pairwise_map.mpr (hmono.imp ?_)
    intro a b hab
    exact (div_le_div_iff_of_pos_right hd).mpr hab
  exact ⟨exportEmits_chain_aux _ hpb hpm, List.getLast?_concat _⟩

theorem c2_witness :
    (exportEmits 1 [0, 1]).Chain' (· ≤ ·) ∧
    (exportEmits 1 [0, 1]).getLast? = some 1 :=
  c2_progress_monotone 1 [0, 1] (by norm_num) (by decide) (by decide)

/-- C3: during the Encoding phase every value handed to `onProgress` equals
`0.2 + 0.8 * (currentPlaybackTime / audioDuration)`, and a render tick
reports if and only if the integer percentage `Math.floor(progress * 100)`
differs from that of the previously reported tick. -/
theorem c3_encoding_progress (last t d : ℚ) :
    ((tickEmit last (t / d)).isSome ↔ ⌊(t / d) * 100⌋ ≠ ⌊last * 100⌋) ∧
    (∀ v, tickEmit last (t / d) = some v → v = 1/5 + (t / d) * (4/5)) ∧
    (∀ ps v, v ∈ encodingEmits last ps → ∃ p ∈ ps, v = 1/5 + p * (4/5)) := by
  refine ⟨?_, ?_, ?_⟩
  · by_cases h : ⌊(t / d) * 100⌋ ≠ ⌊last * 100⌋ <;> simp [tickEmit, h]
  · intro v hv
    by_cases h : ⌊(t / d) * 100⌋ ≠ ⌊last * 100⌋
    · rw [tickEmit, if_pos h] at hv
      rw [← Option.some_inj.mp hv]
      rfl
    · rw [tickEmit, if_neg h] at hv
      exact absurd hv (by simp)
  · intro ps v hv
    rw [encodingEmits_eq_map] at hv
    obtain ⟨p, hp, rfl⟩ := List.mem_map.mp hv
    exact ⟨p, (selectTicks_sublist last ps).subset hp, rfl⟩

theorem c3_witness :
    tickEmit 0 ((1 : ℚ) / 1) = some (1/5 + ((1 : ℚ) / 1) * (4/5)) := by
  have he : tickEmit 0 ((1 : ℚ) / 1) = some 1 := by
    norm_num [tickEmit, progressScale]
  rw [he]
  exact congrArg some ((c3_encoding_progress 0 1 1).2.1 1 he)

/-! ### Output geometry, analyser configuration, end-of-playback handling,
and the export entry guards -/

/-- Output aspect-ratio choice, from `types.ts`. -/
inductive Aspect
  | sixteenNine
  | nineSixteen
deriving DecidableEq, Repr

/-- `const VIDEO_WIDTH = aspectRatio === '16:9' ? 1920 : 1080`. -/
def VIDEO_WIDTH (a : Aspect) : ℕ :=
  if a = Aspect.sixteenNine then 1920 else 1080

/-- `const VIDEO_HEIGHT = aspectRatio === '16:9' ? 1080 : 1920`. -/
def VIDEO_HEIGHT (a : Aspect) : ℕ :=
  if a = Aspect.sixteenNine then 1080 else 1920

/-- `canvas.captureStream(30)`: the canvas video stream's frame rate. -/
def CAPTURE_FPS : ℕ := 30

/-- Frame composite dimensions at a render tick: `canvas.width`/`height` are
set once before the loop and `renderFrame` closes over the constants
`VIDEO_WIDTH`/`VIDEO_HEIGHT`, reassigning neither, so the composite size is
the same function of the aspect ratio at every tick. -/
def frameDims (a : Aspect) (_tick : ℕ) : ℕ × ℕ :=
  (VIDEO_WIDTH a, VIDEO_HEIGHT a)

/-- C6: the output frame dimensions are fixed by the configured aspect ratio
— 1920×1080 for 16:9 and 1080×1920 for 9:16 — the canvas stream is captured
at 30 frames per second, and the frame composite dimensions are the same at
every tick of one export. -/
theorem c6_output_geometry :
    VIDEO_WIDTH Aspect.sixteenNine = 1920 ∧
    VIDEO_HEIGHT Aspect.sixteenNine = 1080 ∧
    VIDEO_WIDTH Aspect.nineSixteen = 1080 ∧
    VIDEO_HEIGHT Aspect.nineSixteen = 1920 ∧
    CAPTURE_FPS = 30 ∧
    ∀ (a : Aspect) (i j : ℕ), frameDims a i = frameDims a j :=
  ⟨rfl, rfl, rfl, rfl, rfl, fun _ _ _ => rfl⟩

/-- The analyser node configuration set by `exportVideo`:
`analyser.fftSize = 256; analyser.smoothingTimeConstant = 0.8`. -/
structure AnalyserConfig where
  fftSize : ℕ
  smoothingTimeConstant : ℚ
deriving DecidableEq, Repr

def exportAnalyser : AnalyserConfig := ⟨256, 4/5⟩

/-- Web Audio semantics: `analyser.frequencyBinCount` is half of `fftSize`. -/
def frequencyBinCount (a : AnalyserConfig) : ℕ := a.fftSize / 2

/-- One spectrum frame: `renderFrame` allocates
`new Uint8Array(analyser.frequencyBinCount)` and fills it with
`getByteFrequencyData`; a `Uint8Array` stores every magnitude mod 256. -/
def sampleSpectrum (a : AnalyserConfig) (raw : ℕ → ℕ) : List ℕ :=
  (List.range (frequencyBinCount a)).map fun i => raw i % 256

/-- C7: the analysis window is 256 samples, producing spectrum frames of
exactly 128 magnitude bins, each an 8-bit unsigned value below 256; the
time-smoothing factor is 0.8; and the frame length is the same for every
sample taken from the one configured analyser instance. -/
theorem c7_analyser :
    exportAnalyser.fftSize = 256 ∧
    frequencyBinCount exportAnalyser = 128 ∧
    exportAnalyser.smoothingTimeConstant = 4/5 ∧
    (∀ raw : ℕ → ℕ, (sampleSpectrum exportAnalyser raw).length = 128) ∧
    (∀ (raw : ℕ → ℕ) (v : ℕ), v ∈ sampleSpectrum exportAnalyser raw → v < 256) ∧
    (∀ raw raw' : ℕ → ℕ,
      (sampleSpectrum exportAnalyser raw).length =
        (sampleSpectrum exportAnalyser raw').length) := by
  refine ⟨rfl, rfl, rfl, fun raw => by simp [sampleSpectrum, frequencyBinCount, exportAnalyser], ?_,
    fun raw raw' => by simp [sampleSpectrum, frequencyBinCount, exportAnalyser]⟩
  intro raw v hv
  obtain ⟨i, _, rfl⟩ := List.mem_map.mp hv
  exact Nat.mod_lt _ (by norm_num)

theorem c7_witness :
    (44 : ℕ) ∈ sampleSpectrum exportAnalyser (fun _ => 300) ∧ (44 : ℕ) < 256 :=
  ⟨by decide, c7_analyser.2.2.2.2.1 (fun _ => 300) 44 (by decide)⟩

/-- The two actions of the exporter's `audio.onended` handler. -/
inductive EndedStep
  | recorderStop
  | cleanup
deriving DecidableEq, Repr

/-- `audio.onended` from `exportVideo`:
`setTimeout(() => recorder.stop(), 500)` — the encoder stop signal behind a
fixed 500 ms delay — followed by an immediate `cleanup()`. Each entry is
(delay in milliseconds, action). -/
def onendedSchedule : List (ℕ × EndedStep) :=
  [(500, EndedStep.recorderStop), (0, EndedStep.cleanup)]

/-- C4: when playback reaches its natural end, the only stop signal sent to
the recorder is the one scheduled 500 ms after the `ended` event. -/
theorem c4_grace_delay :
    onendedSchedule.filter (fun s => decide (s.2 = EndedStep.recorderStop)) =
      [(500, EndedStep.recorderStop)] ∧
    ∀ p ∈ onendedSchedule, p.2 = EndedStep.recorderStop → p.1 = 500 := by
  refine ⟨rfl, ?_⟩
  intro p hp hstop
  rcases List.mem_cons.mp hp with rfl | hp
  · rfl
  · rcases List.mem_cons.mp hp with rfl | hp
    · exact absurd hstop (by decide)
    · exact absurd hp (List.not_mem_nil p)

theorem c4_witness : (500, EndedStep.recorderStop) ∈ onendedSchedule ∧
    (500, EndedStep.recorderStop).1 = 500 :=
  ⟨by decide, c4_grace_delay.2 (500, EndedStep.recorderStop) (by decide) rfl⟩

/-- The view routing states of `App.tsx`. -/
inductive AppView
  | input
  | videoPreview
  | timelineEditor
deriving DecidableEq, Repr

/-- The slice of `AppState` read by the export entry points of `App.tsx`. -/
structure AppExportState where
  hasAudioFile : Bool
  hasImageFile : Bool
  hasLyrics : Bool
  isLoading : Bool
  isExporting : Bool
  view : AppView
  hasAudioUrl : Bool
deriving DecidableEq, Repr

/-- The guard of `handleExportVideo` in `App.tsx`:
`if (!appState.audioFile || !appState.imageFile || !appState.lyrics) return;`
— the call proceeds exactly when the three inputs are present; no other
field (in particular not `isExporting`) is consulted. -/
def handleExportProceeds (s : AppExportState) : Bool :=
  s.hasAudioFile && s.hasImageFile && s.hasLyrics

/-- The mount condition of the preview screen holding the Export button:
`!isLoading && !isExporting && view === View.VIDEO_PREVIEW && audioUrl`. -/
def previewMounted (s : AppExportState) : Bool :=
  !s.isLoading && !s.isExporting && (s.view == AppView.videoPreview) && s.hasAudioUrl

/-- The only rejection performed at the head of `exportVideo`:
`if (!window.MediaRecorder) throw ...`. The module keeps no in-flight flag,
so acceptance cannot depend on how many exports are already running; the
second argument records that count and is — faithfully — ignored. -/
def exportVideoAccepts (hasMediaRecorder : Bool) (_exportsInFlight : ℕ) : Bool :=
  hasMediaRecorder

/-- C5 counterexample: with audio, image and lyrics present and an export
already in flight (`isExporting = true`), `handleExportVideo` still proceeds,
and `exportVideo` accepts with one export already running — a second export
request is not rejected. -/
theorem c5_counterexample :
    handleExportProceeds
        ⟨true, true, true, false, true, AppView.videoPreview, true⟩ = true ∧
    exportVideoAccepts true 1 = true :=
  ⟨rfl, rfl⟩

/-- C5 amended: no export entry point rejects a concurrent export —
`handleExportVideo` proceeds exactly when the three inputs are present,
independently of `isExporting`, and `exportVideo` accepts independently of
the number of exports in flight; a second request through the UI is
prevented only because the preview screen (and with it the Export button) is
unmounted whenever `isExporting` is true. -/
theorem c5_no_inflight_rejection :
    (∀ s : AppExportState,
      handleExportProceeds s = (s.hasAudioFile && s.hasImageFile && s.hasLyrics)) ∧
    (∀ (mr : Bool) (n m : ℕ), exportVideoAccepts mr n = exportVideoAccepts mr m) ∧
    (∀ s : AppExportState, (previewMounted s && s.isExporting) = false) := by
  refine ⟨fun _ => rfl, fun _ _ _ => rfl, fun s => ?_⟩
  cases h : s.isExporting <;> simp [previewMounted, h]

/-! ### Visualizer gradient geometry -/

/-- Normalized gradient stop positions, translated from both visualizers:
`colors.forEach((color, index) => gradient.addColorStop(index / (colors.length - 1 || 1), color))`.
In JavaScript `colors.length - 1 || 1` is `1` when the palette has exactly
one entry (the difference `0` is falsy) and `-1` when the palette is empty. -/
def gradientStops (colors : List String) : List (ℚ × String) :=
  colors.enum.map fun ic =>
    ((ic.1 : ℚ) /
      (if (colors.length : ℤ) - 1 = 0 then (1 : ℚ)
       else (((colors.length : ℤ) - 1 : ℤ) : ℚ)), ic.2)

/-- Specification-side formulation: stop positions
`index / max(paletteLength - 1, 1)`. -/
def specGradientStops (colors : List String) : List (ℚ × String) :=
  colors.enum.map fun ic =>
    ((ic.1 : ℚ) / ((max ((colors.length : ℤ) - 1) 1 : ℤ) : ℚ), ic.2)

/-- `ctx.shadowColor = colors[0] || 'rgba(103, 232, 249, 0.7)'` from
`drawLineVisualizer`: the first palette color, with the fallback when the
palette is empty or its first entry is the empty string (both falsy). -/
def lineShadowColor (colors : List String) : String :=
  match colors.head? with
  | some c => if c = "" then "rgba(103, 232, 249, 0.7)" else c
  | none => "rgba(103, 232, 249, 0.7)"

/-- `ctx.shadowColor = imageColors[0] || 'white'` from the `big_text`
branch of `renderFrame` (the outlined title's glow). -/
def bigTextShadowColor (imageColors : List String) : String :=
  match imageColors.head? with
  | some c => if c = "" then "white" else c
  | none => "white"

/-- What one `drawLineVisualizer` call paints. -/
structure LineViz where
  stops : List (ℚ × String)
  shadowColor : String
  points : List (ℚ × ℚ)
deriving DecidableEq, Repr

/-- `drawLineVisualizer` translated: one linear gradient with
`gradientStops`, the stroke shadow from the first palette color, and one
polyline vertex per bin at
`(x + i * (width / bufferLength), y - (v / 255) * height)` (the running
`currentX` starts at `x` and advances by `sliceWidth` per bin). -/
def drawLineVisualizer (dataArray : List ℕ) (colors : List String)
    (x y width height : ℚ) : LineViz :=
  { stops := gradientStops colors
    shadowColor := lineShadowColor colors
    points := dataArray.enum.map fun iv =>
      (x + (iv.1 : ℚ) * (width / (dataArray.length : ℚ)),
       y - ((iv.2 : ℚ) / 255) * height) }

/-- One bar painted by `drawBarsVisualizer`. -/
structure Bar where
  barX : ℚ
  barHeight : ℚ
  stops : List (ℚ × String)
deriving DecidableEq, Repr

/-- `drawBarsVisualizer` translated: one bar per bin of height
`(v / 255) * height`, at `barX = x + i * (barWidth + 2)` where
`barWidth = (width / bufferLength) * 1.5`, each filled by a gradient with
stops `gradientStops colors`. -/
def drawBarsVisualizer (dataArray : List ℕ) (colors : List String)
    (x _y width height : ℚ) : List Bar :=
  dataArray.enum.map fun iv =>
    { barX := x + (iv.1 : ℚ) * ((width / (dataArray.length : ℚ)) * (3/2) + 2)
      barHeight := ((iv.2 : ℚ) / 255) * height
      stops := gradientStops colors }

theorem gradientStops_eq_spec (colors : List String) :
    gradientStops colors = specGradientStops colors := by
  cases colors with
  | nil => rfl
  | cons c cs =>
    have hd : (if ((c :: cs).length : ℤ) - 1 = 0 then (1 : ℚ)
        else ((((c :: cs).length : ℤ) - 1 : ℤ) : ℚ)) =
        ((max (((c :: cs).length : ℤ) - 1) 1 : ℤ) : ℚ) := by
      by_cases hz : ((c :: cs).length : ℤ) - 1 = 0
      · rw [if_pos hz]
        have hm : max (((c :: cs).length : ℤ) - 1) 1 = 1 := by
          simp only [List.length_cons] at hz ⊢
          omega
        rw [hm]
        norm_num
      · rw [if_neg hz]
        have hm : max (((c :: cs).length : ℤ) - 1) 1 = ((c :: cs).length : ℤ) - 1 := by
          simp only [List.length_cons] at hz ⊢
          omega
        rw [hm]
    simp only [gradientStops, specGradientStops, hd]

theorem gradientStops_singleton (c : String) :
    gradientStops [c] = [((0 : ℚ), c)] := by
  simp [gradientStops]

/-- C8: for every palette the gradient color stops sit at the normalized
positions `index / max(paletteLength - 1, 1)` (the code's
`index / (length - 1 || 1)` agrees for every palette, vacuously so for the
empty one, whose stop list is empty), and a single-entry palette places its
only stop at position 0 with denominator 1 — no division by zero, a solid
fill — in both the bars and the line visualizers. -/
theorem c8_gradient_normalization :
    (∀ colors : List String, gradientStops colors = specGradientStops colors) ∧
    (∀ c : String, gradientStops [c] = [((0 : ℚ), c)]) ∧
    (∀ (c : String) (dataArray : List ℕ) (x y w h : ℚ),
      (drawLineVisualizer dataArray [c] x y w h).stops = [((0 : ℚ), c)]) ∧
    (∀ (c : String) (dataArray : List ℕ) (x y w h : ℚ),
      ((drawBarsVisualizer dataArray [c] x y w h).map Bar.stops).all
        (fun s => decide (s = [((0 : ℚ), c)])) = true) := by
  refine ⟨gradientStops_eq_spec, gradientStops_singleton, ?_, ?_⟩
  · intro c dataArray x y w h
    simpa [drawLineVisualizer] using gradientStops_singleton c
  · intro c dataArray x y w h
    rw [List.all_eq_true]
    intro s hs
    obtain ⟨b, hb, rfl⟩ := List.mem_map.mp hs
    simp only [drawBarsVisualizer] at hb
    obtain ⟨iv, hiv, rfl⟩ := List.mem_map.mp hb
    simpa using gradientStops_singleton c

/-- C10: with an empty color palette both visualizers still complete for
every spectrum frame, producing a full render — one polyline vertex (line)
and one bar (bars) per bin; the gradient receives no color stops; and the
glow/shadow colors fall back to the built-in defaults
`'rgba(103, 232, 249, 0.7)'` (line visualizer) and `'white'` (big_text
title glow) instead of reading out of range. -/
theorem c10_empty_palette :
    (∀ (dataArray : List ℕ) (x y w h : ℚ),
      (drawLineVisualizer dataArray [] x y w h).stops = [] ∧
      (drawLineVisualizer dataArray [] x y w h).shadowColor =
        "rgba(103, 232, 249, 0.7)" ∧
      (drawLineVisualizer dataArray [] x y w h).points.length =
        dataArray.length) ∧
    (∀ (dataArray : List ℕ) (x y w h : ℚ),
      (drawBarsVisualizer dataArray [] x y w h).length = dataArray.length ∧
      ((drawBarsVisualizer dataArray [] x y w h).all
        (fun b => decide (b.stops = []))) = true) ∧
    bigTextShadowColor [] = "white" := by
  refine ⟨?_, ?_, rfl⟩
  · intro dataArray x y w h
    exact ⟨rfl, rfl, by simp [drawLineVisualizer]⟩
  · intro dataArray x y w h
    constructor
    · simp [drawBarsVisualizer]
    · rw [List.all_eq_true]
      intro b hb
      simp only [drawBarsVisualizer] at hb
      obtain ⟨iv, hiv, rfl⟩ := List.mem_map.mp hb
      simp [gradientStops]

end LyricVideo
